import Mathlib

/-!
Shallow embedding of the Doc2Doc repository (src/main.py) in Lean 4,
with theorems settling the frozen claims about its specification.

Python strings are modelled as Lean `String` / `List Char`; Python dicts as
association lists with Python's insertion-order and last-write-wins update
semantics; raising functions return `Except`.
-/

namespace Doc2Doc

/-- Python errors raised by the modelled functions. -/
inductive PyErr where
  | typeErr (msg : String)
  | valueErr (msg : String)
deriving DecidableEq, Repr

/-! ### Model of Python `int(s, 16)`, used by `is_hexadecimal` / `hex_to_rgb`

Python's `int(s, base=16)` accepts: optional surrounding whitespace, an
optional sign, an optional `0x`/`0X` base marker, then hex digits with
single underscores allowed between digits (and one directly after the
base marker). Anything else raises `ValueError`. -/

/-- Whitespace characters stripped by Python around an int literal (ASCII). -/
def isPyWs (c : Char) : Bool :=
  c = ' ' || c = '\t' || c = '\n' || c = '\r' || c = '\x0b' || c = '\x0c'

/-- Strip leading and trailing whitespace (Python `str.strip()`). -/
def pyStrip (l : List Char) : List Char :=
  ((l.dropWhile isPyWs).reverse.dropWhile isPyWs).reverse

/-- Split an optional leading sign, returning the sign as `1` or `-1`. -/
def splitSign : List Char → Int × List Char
  | [] => (1, [])
  | c :: rest =>
    if c = '+' then (1, rest)
    else if c = '-' then (-1, rest)
    else (1, c :: rest)

/-- Split an optional leading `0x` / `0X` base marker. -/
def split0x : List Char → Bool × List Char
  | c1 :: c2 :: rest =>
    if c1 = '0' && (c2 = 'x' || c2 = 'X') then (true, rest)
    else (false, c1 :: c2 :: rest)
  | l => (false, l)

/-- Hexadecimal digit test (0-9, a-f, A-F). -/
def isHexDigitC (c : Char) : Bool :=
  c.isDigit || ('a' ≤ c && c ≤ 'f') || ('A' ≤ c && c ≤ 'F')

/-- Numeric value of a hex digit character. -/
def hexDigitVal (c : Char) : Nat :=
  if c.isDigit then c.toNat - 48
  else if 'a' ≤ c then c.toNat - 87
  else c.toNat - 55

/-- Consume the remaining digits after at least one digit was read;
underscores are admitted only singly and only between digits. -/
def goHexDigits (acc : Nat) : List Char → Option Nat
  | [] => some acc
  | c :: rest =>
    if c = '_' then
      match rest with
      | c2 :: rest2 =>
          if isHexDigitC c2 then goHexDigits (16 * acc + hexDigitVal c2) rest2 else none
      | [] => none
    else if isHexDigitC c then goHexDigits (16 * acc + hexDigitVal c) rest else none

/-- Parse a nonempty hex-digit sequence (no leading underscore). -/
def startHexDigits : List Char → Option Nat
  | [] => none
  | c :: rest => if isHexDigitC c then goHexDigits (hexDigitVal c) rest else none

/-- Parse the digit part; a single leading underscore is allowed only
directly after a `0x` base marker. -/
def parseHexBody (after0x : Bool) (l : List Char) : Option Nat :=
  if after0x then
    match l with
    | '_' :: rest => startHexDigits rest
    | _ => startHexDigits l
  else startHexDigits l

/-- Model of Python `int(s, 16)`: `some` the parsed value, `none` for
`ValueError`. -/
def py_int_base16 (s : String) : Option Int :=
  let l := pyStrip s.data
  let sg := splitSign l
  let pr := split0x sg.2
  (parseHexBody pr.1 pr.2).map (fun n => sg.1 * Int.ofNat n)

/-- `is_hexadecimal` from src/main.py: `int(s, 16)` succeeds. -/
def is_hexadecimal (s : String) : Bool :=
  (py_int_base16 s).isSome

/-- `HEX_COLOR_LENGTH` constant from src/main.py. -/
def HEX_COLOR_LENGTH : Nat := 6

/-- `hex_to_rgb` from src/main.py: validates with `is_hexadecimal` and the
length check, then parses the three 2-character slices with `int(_, 16)`. -/
def hex_to_rgb (s : String) : Except PyErr (Int × Int × Int) :=
  if !(is_hexadecimal s) || s.data.length ≠ HEX_COLOR_LENGTH then
    .error (.typeErr "not a hex color string")
  else
    match py_int_base16 ⟨s.data.take 2⟩, py_int_base16 ⟨(s.data.drop 2).take 2⟩,
        py_int_base16 ⟨s.data.drop 4⟩ with
    | some r, some g, some b => .ok (r, g, b)
    | _, _, _ => .error (.valueErr "invalid literal for int() with base 16")

/-- Spec-side predicate: the string is exactly 6 hexadecimal digits. -/
def isSixHexDigits (s : String) : Bool :=
  s.data.length == 6 && s.data.all isHexDigitC

/-- Hex value of a list of hex-digit characters. -/
def pyHexVal (l : List Char) : Nat :=
  l.foldl (fun a c => 16 * a + hexDigitVal c) 0

lemma ws_not_hex {c : Char} (h : isPyWs c = true) : isHexDigitC c = false := by
  simp [isPyWs] at h
  rcases h with ((((rfl | rfl) | rfl) | rfl) | rfl) | rfl <;> decide

lemma hex_not_ws {c : Char} (h : isHexDigitC c = true) : isPyWs c = false := by
  cases hw : isPyWs c with
  | false => rfl
  | true => rw [ws_not_hex hw] at h; exact absurd h (by simp)

lemma hex_ne {c d : Char} (h : isHexDigitC c = true) (hd : isHexDigitC d = false) :
    c ≠ d := by
  intro he; rw [he, hd] at h; exact absurd h (by simp)

lemma dropWhile_ws_eq_self (l : List Char) (h : ∀ c ∈ l, isHexDigitC c = true) :
    l.dropWhile isPyWs = l := by
  cases l with
  | nil => rfl
  | cons c rest =>
    rw [List.dropWhile_cons, hex_not_ws (h c (by simp))]
    simp

lemma pyStrip_eq_self (l : List Char) (h : ∀ c ∈ l, isHexDigitC c = true) :
    pyStrip l = l := by
  unfold pyStrip
  rw [dropWhile_ws_eq_self l h, dropWhile_ws_eq_self l.reverse (by simpa using h),
    List.reverse_reverse]

lemma goHexDigits_all (l : List Char) (acc : Nat)
    (h : ∀ c ∈ l, isHexDigitC c = true) :
    goHexDigits acc l = some (l.foldl (fun a c => 16 * a + hexDigitVal c) acc) := by
  induction l generalizing acc with
  | nil => rfl
  | cons c rest ih =>
    have hc : isHexDigitC c = true := h c (by simp)
    have hu : c ≠ '_' := hex_ne hc (by decide)
    rw [goHexDigits.eq_def]
    simp only [if_neg hu, if_pos hc, List.foldl_cons]
    exact ih _ (fun x hx => h x (by simp [hx]))

lemma startHexDigits_all (l : List Char) (hne : l ≠ [])
    (h : ∀ c ∈ l, isHexDigitC c = true) :
    startHexDigits l = some (pyHexVal l) := by
  cases l with
  | nil => exact absurd rfl hne
  | cons c rest =>
    rw [startHexDigits, if_pos (h c (by simp)),
      goHexDigits_all rest _ (fun x hx => h x (by simp [hx]))]
    simp [pyHexVal]

lemma py_int_base16_hexdigits (s : String) (hne : s.data ≠ [])
    (h : ∀ c ∈ s.data, isHexDigitC c = true) :
    py_int_base16 s = some (Int.ofNat (pyHexVal s.data)) := by
  simp only [py_int_base16]
  rw [pyStrip_eq_self s.data h]
  have hsign : splitSign s.data = (1, s.data) := by
    cases hl : s.data with
    | nil => exact absurd hl hne
    | cons c rest =>
      have hc : isHexDigitC c = true := h c (by simp [hl])
      rw [splitSign, if_neg (hex_ne hc (by decide)), if_neg (hex_ne hc (by decide))]
  rw [hsign]
  have h0x : split0x s.data = (false, s.data) := by
    cases hl : s.data with
    | nil => exact absurd hl hne
    | cons c1 rest1 =>
      cases rest1 with
      | nil => rfl
      | cons c2 rest2 =>
        have hc2 : isHexDigitC c2 = true := h c2 (by simp [hl])
        rw [split0x, if_neg]
        simp only [Bool.and_eq_true, Bool.or_eq_true, decide_eq_true_eq, not_and, not_or]
        intro _
        exact ⟨hex_ne hc2 (by decide), hex_ne hc2 (by decide)⟩
  rw [h0x]
  simp only [parseHexBody, if_neg Bool.false_ne_true]
  rw [startHexDigits_all s.data hne h]
  simp

lemma take_two_ne_nil {l : List Char} (h : l.length = 6) : l.take 2 ≠ [] := by
  intro he
  have := congrArg List.length he
  rw [List.length_take, h] at this
  simp at this

lemma drop_take_ne_nil {l : List Char} (h : l.length = 6) : (l.drop 2).take 2 ≠ [] := by
  intro he
  have := congrArg List.length he
  rw [List.length_take, List.length_drop, h] at this
  simp at this

lemma drop_four_ne_nil {l : List Char} (h : l.length = 6) : l.drop 4 ≠ [] := by
  intro he
  have := congrArg List.length he
  rw [List.length_drop, h] at this
  simp at this

/-- C1 (amended): `hex_to_rgb s` raises exactly when Python's `int(_, 16)`
rejects `s`, or `s` is not 6 characters long, or one of the three
2-character slices is rejected by `int(_, 16)`; on a string of exactly 6
hexadecimal digits it returns the triple of the three byte-group values. -/
theorem claim_C1_hex_to_rgb (s : String) :
    (isSixHexDigits s = true →
      hex_to_rgb s = .ok (Int.ofNat (pyHexVal (s.data.take 2)),
        Int.ofNat (pyHexVal ((s.data.drop 2).take 2)),
        Int.ofNat (pyHexVal (s.data.drop 4)))) ∧
    ((∃ e, hex_to_rgb s = .error e) ↔
      ¬(is_hexadecimal s = true ∧ s.data.length = 6 ∧
        (py_int_base16 ⟨s.data.take 2⟩).isSome = true ∧
        (py_int_base16 ⟨(s.data.drop 2).take 2⟩).isSome = true ∧
        (py_int_base16 ⟨s.data.drop 4⟩).isSome = true)) := by
  constructor
  · intro h6
    simp only [isSixHexDigits, Bool.and_eq_true, beq_iff_eq, List.all_eq_true] at h6
    obtain ⟨hlen, hall⟩ := h6
    have hne : s.data ≠ [] := by intro he; rw [he] at hlen; simp at hlen
    have hhex : is_hexadecimal s = true := by
      rw [is_hexadecimal, py_int_base16_hexdigits s hne hall]; rfl
    have h1 : py_int_base16 ⟨s.data.take 2⟩ = some (Int.ofNat (pyHexVal (s.data.take 2))) :=
      py_int_base16_hexdigits _ (take_two_ne_nil hlen)
        (fun c hc => hall c (List.take_subset _ _ hc))
    have h2 : py_int_base16 ⟨(s.data.drop 2).take 2⟩ =
        some (Int.ofNat (pyHexVal ((s.data.drop 2).take 2))) :=
      py_int_base16_hexdigits _ (drop_take_ne_nil hlen)
        (fun c hc => hall c (List.drop_subset _ _ (List.take_subset _ _ hc)))
    have h3 : py_int_base16 ⟨s.data.drop 4⟩ = some (Int.ofNat (pyHexVal (s.data.drop 4))) :=
      py_int_base16_hexdigits _ (drop_four_ne_nil hlen)
        (fun c hc => hall c (List.drop_subset _ _ hc))
    rw [hex_to_rgb, if_neg (by simp [hhex, hlen, HEX_COLOR_LENGTH]), h1, h2, h3]
  · by_cases hg : is_hexadecimal s = true ∧ s.data.length = 6
    · obtain ⟨h1, h2⟩ := hg
      rw [hex_to_rgb, if_neg (by simp [h1, h2, HEX_COLOR_LENGTH])]
      rcases ha : py_int_base16 ⟨s.data.take 2⟩ with _ | a
      · simp [ha, h1, h2]
      rcases hb : py_int_base16 ⟨(s.data.drop 2).take 2⟩ with _ | b
      · simp [ha, hb, h1, h2]
      rcases hc : py_int_base16 ⟨s.data.drop 4⟩ with _ | c
      · simp [ha, hb, hc, h1, h2]
      · simp [ha, hb, hc, h1, h2]
    · rw [hex_to_rgb, if_pos]
      · constructor
        · intro _ hcon; exact hg ⟨hcon.1, hcon.2.1⟩
        · intro _; exact ⟨_, rfl⟩
      · simp only [HEX_COLOR_LENGTH, Bool.or_eq_true, Bool.not_eq_true', decide_eq_true_eq]
        by_cases h1 : is_hexadecimal s = true
        · right; intro h2; exact hg ⟨h1, h2⟩
        · left; simpa using h1

/-- C1 counterexample: `"+12345"` is not a string of 6 hex digits, yet
`hex_to_rgb` accepts it and returns `(1, 35, 69)` instead of raising. -/
theorem claim_C1_counterexample :
    hex_to_rgb "+12345" = .ok (1, 35, 69) ∧ isSixHexDigits "+12345" = false := by
  constructor <;> rfl

/-- C1 witness: the amended theorem applied to `"ff0000"`. -/
theorem claim_C1_witness :
    isSixHexDigits "ff0000" = true ∧ hex_to_rgb "ff0000" = .ok (255, 0, 0) :=
  ⟨by rfl, ((claim_C1_hex_to_rgb "ff0000").1 (by rfl)).trans (by rfl)⟩

/-! ### Model of `convert_file_format` (src/main.py) -/

/-- Python `str.split(sep)` for a single-character separator: always returns
at least one (possibly empty) chunk. -/
def pySplitOnChar (sep : Char) : List Char → List (List Char)
  | [] => [[]]
  | c :: rest =>
    match pySplitOnChar sep rest with
    | [] => [[]]
    | w :: ws => if c = sep then [] :: w :: ws else (c :: w) :: ws

/-- `filename.split(".")[-1]` from `convert_file_format`. -/
def currentFormat (filename : String) : String :=
  ⟨(pySplitOnChar '.' filename.data).getLastD []⟩

/-- Python `str.replace(old, new)`: replace all non-overlapping occurrences
left to right; an empty `old` inserts `new` between all characters. The
`fuel` argument only makes the recursion structural: each step consumes at
least one character and one unit of fuel, so with `fuel = s.length` (as
`replaceAll` passes) the `0, c :: rest` arm is never reached. -/
def replaceAllF (old new : List Char) : Nat → List Char → List Char
  | _, [] => if old = [] then new else []
  | 0, s => s
  | f + 1, c :: rest =>
    if old ≠ [] ∧ old.isPrefixOf (c :: rest) then
      new ++ replaceAllF old new f ((c :: rest).drop old.length)
    else if old = [] then
      new ++ c :: replaceAllF old new f rest
    else
      c :: replaceAllF old new f rest

/-- Python `str.replace(old, new)` on character lists. -/
def replaceAll (old new : List Char) (s : List Char) : List Char :=
  replaceAllF old new s.length s

/-- Python `str.replace` on strings. -/
def pyReplace (s old new : String) : String :=
  ⟨replaceAll old.data new.data s.data⟩

/-- `valid_extensions` list from src/main.py. -/
def valid_extensions : List String := ["docx", "pdf", "txt", "pptx", "ppt", "md"]

/-- `valid_conversions` table from src/main.py, as a lookup function
(only ever consulted on members of `valid_extensions`). -/
def valid_conversions (fmt : String) : List String :=
  if fmt = "docx" then ["pdf", "txt", "md"]
  else if fmt = "pdf" then ["docx", "txt", "md"]
  else if fmt = "txt" then ["docx", "pdf", "md"]
  else if fmt = "pptx" then ["ppt", "pdf"]
  else if fmt = "ppt" then ["pptx", "pdf"]
  else if fmt = "md" then ["docx", "pdf", "txt"]
  else []

/-- `convert_file_format` from src/main.py. -/
def convert_file_format (filename target_format : String) : Option String :=
  let current_format := currentFormat filename
  if current_format ∈ valid_extensions ∧
      target_format ∈ valid_conversions current_format then
    some (pyReplace filename current_format target_format)
  else none

lemma pySplitOnChar_ne_nil (sep : Char) (l : List Char) : pySplitOnChar sep l ≠ [] := by
  cases l with
  | nil => simp [pySplitOnChar]
  | cons c rest =>
    rw [pySplitOnChar]
    rcases pySplitOnChar sep rest with _ | ⟨w, ws⟩
    · simp
    · by_cases hc : c = sep <;> simp [hc]

lemma pySplitOnChar_no_sep (sep : Char) (l : List Char) (h : sep ∉ l) :
    pySplitOnChar sep l = [l] := by
  induction l with
  | nil => rfl
  | cons c rest ih =>
    have hc : ¬(c = sep) := fun he => h (by simp [he])
    rw [pySplitOnChar, ih (fun hm => h (by simp [hm]))]
    simp [hc]

lemma pySplitOnChar_two_chunks (sep : Char) (l : List Char) (h : sep ∈ l) :
    2 ≤ (pySplitOnChar sep l).length := by
  induction l with
  | nil => simp at h
  | cons c rest ih =>
    rw [pySplitOnChar]
    rcases hw : pySplitOnChar sep rest with _ | ⟨w, ws⟩
    · exact absurd hw (pySplitOnChar_ne_nil sep rest)
    · by_cases hc : c = sep
      · simp [hc]
      · have hm : sep ∈ rest := by
          rcases List.mem_cons.mp h with he | hm
          · exact absurd he.symm hc
          · exact hm
        have h2 := ih hm
        rw [hw] at h2
        simp [hc] at h2 ⊢
        omega

lemma getLastD_indep {α : Type} (l : List α) (hne : l ≠ []) (d1 d2 : α) :
    l.getLastD d1 = l.getLastD d2 := by
  cases l with
  | nil => exact absurd rfl hne
  | cons x xs => rw [List.getLastD_cons, List.getLastD_cons]

lemma pySplitOnChar_last_after_sep (sep : Char) (l1 l2 : List Char) (h : sep ∉ l2) :
    (pySplitOnChar sep (l1 ++ sep :: l2)).getLastD [] = l2 := by
  induction l1 with
  | nil =>
    rw [List.nil_append, pySplitOnChar, pySplitOnChar_no_sep sep l2 h]
    simp [List.getLastD_cons]
  | cons c l1' ih =>
    rw [List.cons_append, pySplitOnChar]
    rcases hw : pySplitOnChar sep (l1' ++ sep :: l2) with _ | ⟨w, ws⟩
    · exact absurd hw (pySplitOnChar_ne_nil sep _)
    · have hws : ws ≠ [] := by
        have h2 := pySplitOnChar_two_chunks sep (l1' ++ sep :: l2) (by simp)
        rw [hw] at h2
        simp at h2
        intro he
        rw [he] at h2
        simp at h2
      rw [hw] at ih
      show (if c = sep then [] :: w :: ws else (c :: w) :: ws).getLastD [] = l2
      by_cases hc : c = sep
      · rw [if_pos hc, List.getLastD_cons]
        exact ih
      · rw [if_neg hc, List.getLastD_cons]
        rw [List.getLastD_cons] at ih
        rw [getLastD_indep ws hws (c :: w) w]
        exact ih

/-- C2: `convert_file_format` returns a filename exactly when the segment
after the last dot is in the fixed extension set and the target is listed
for it in the conversion table; self-conversions are never listed, so
no-op conversions (e.g. `("file.pdf", "pdf")`) return `None`. -/
theorem claim_C2_convert_file_format (filename target_format : String) :
    ((convert_file_format filename target_format).isSome = true ↔
      currentFormat filename ∈ valid_extensions ∧
        target_format ∈ valid_conversions (currentFormat filename)) ∧
    (∀ pre post : List Char, '.' ∉ post → filename.data = pre ++ '.' :: post →
      currentFormat filename = ⟨post⟩) ∧
    ('.' ∉ filename.data → currentFormat filename = filename) ∧
    (∀ fmt ∈ valid_extensions, fmt ∉ valid_conversions fmt) ∧
    convert_file_format "file.pdf" "pdf" = none := by
  refine ⟨?_, ?_, ?_, by decide, by rfl⟩
  · by_cases h : currentFormat filename ∈ valid_extensions ∧
        target_format ∈ valid_conversions (currentFormat filename) <;>
      simp [convert_file_format, h]
  · intro pre post hpost hdata
    rw [currentFormat, hdata, pySplitOnChar_last_after_sep '.' pre post hpost]
  · intro hnd
    rw [currentFormat, pySplitOnChar_no_sep '.' filename.data hnd]
    rfl

/-- C2 witness: the characterisation applied to concrete inputs. -/
theorem claim_C2_witness :
    currentFormat "doc.report.pdf" = "pdf" ∧
      (convert_file_format "report.docx" "pdf").isSome = true :=
  ⟨(claim_C2_convert_file_format "doc.report.pdf" "pdf").2.1
      "doc.report".data "pdf".data (by decide) (by rfl),
    ((claim_C2_convert_file_format "report.docx" "pdf").1).mpr (by decide)⟩

/-- C9: an allowed conversion replaces every occurrence of the current
format substring in the filename (Python `str.replace`), not only the
trailing extension: converting `"pdf_report.pdf"` to `"txt"` yields
`"txt_report.txt"`, changing the stem as well. -/
theorem claim_C9_replace_hits_stem :
    convert_file_format "pdf_report.pdf" "txt" = some "txt_report.txt" ∧
    ("txt_report.txt" : String) ≠ "pdf_report.txt" ∧
    (∀ filename target_format : String,
      currentFormat filename ∈ valid_extensions →
      target_format ∈ valid_conversions (currentFormat filename) →
      convert_file_format filename target_format =
        some (pyReplace filename (currentFormat filename) target_format)) := by
  refine ⟨by rfl, by decide, ?_⟩
  intro filename target_format h1 h2
  rw [convert_file_format, if_pos ⟨h1, h2⟩]

/-- C9 witness: the general clause applied to `"pdf_report.pdf"`. -/
theorem claim_C9_witness :
    convert_file_format "pdf_report.pdf" "txt" =
      some (pyReplace "pdf_report.pdf" (currentFormat "pdf_report.pdf") "txt") :=
  (claim_C9_replace_hits_stem).2.2 "pdf_report.pdf" "txt" (by decide) (by decide)

/-! ### Model of `get_median_font_size` (src/main.py) -/

/-- `get_median_font_size` from src/main.py: `None` on the empty list,
otherwise element `(n-1)//2` of the sorted list (Python `sorted`; on
integers any correct sort gives the same list). -/
def get_median_font_size (font_sizes : List Int) : Option Int :=
  if font_sizes = [] then none
  else (font_sizes.insertionSort (· ≤ ·))[(font_sizes.length - 1) / 2]?

/-- C4: `get_median_font_size` is `None` exactly on the empty list and
otherwise is entry `(n-1)//2` of any sorted rearrangement — the middle
element for odd length, the lower of the two middle values for even
length; `[10,12,14,16]` gives `12`. -/
theorem claim_C4_get_median_font_size (l : List Int) :
    (get_median_font_size l = none ↔ l = []) ∧
    (∀ s : List Int, l.Perm s → s.Sorted (· ≤ ·) →
      get_median_font_size l = s[(l.length - 1) / 2]?) ∧
    get_median_font_size [10, 12, 14, 16] = some 12 := by
  refine ⟨⟨?_, ?_⟩, ?_, by decide⟩
  · intro h
    by_contra hne
    rw [get_median_font_size, if_neg hne, List.getElem?_eq_none_iff] at h
    rw [List.length_insertionSort] at h
    have : 0 < l.length := List.length_pos.mpr hne
    omega
  · intro h
    rw [h]
    rfl
  · intro s hperm hsorted
    have hs : s = l.insertionSort (· ≤ ·) :=
      List.eq_of_perm_of_sorted
        (hperm.symm.trans (List.perm_insertionSort _ l).symm) hsorted
        (List.sorted_insertionSort _ l)
    subst hs
    by_cases hne : l = []
    · subst hne; rfl
    · rw [get_median_font_size, if_neg hne]

/-- C4 witness: the sorted-rearrangement clause applied to `[14, 10, 12]`. -/
theorem claim_C4_witness :
    get_median_font_size [14, 10, 12] = some 12 :=
  ((claim_C4_get_median_font_size [14, 10, 12]).2.1 [10, 12, 14]
    (by decide) (by decide)).trans (by rfl)

/-! ### Model of `count_nested_levels` (src/main.py) -/

/-- A nested document tree: a Python dict from int ids to subtrees, with
its insertion order. -/
inductive NestedDoc where
  | node (entries : List (Int × NestedDoc))

/-- `count_nested_levels` from src/main.py. -/
def count_nested_levels (target_document_id : Int) : NestedDoc → Int → Int
  | .node [], _ => -1
  | .node ((key, value) :: rest), level =>
    if key = target_document_id then level
    else
      let level_found := count_nested_levels target_document_id value (level + 1)
      if 0 ≤ level_found then level_found
      else count_nested_levels target_document_id (.node rest) level

/-- Preorder traversal of the tree: each key paired with its level,
siblings in mapping order, a node's key before its subtree. -/
def preorder : NestedDoc → Int → List (Int × Int)
  | .node [], _ => []
  | .node ((key, value) :: rest), level =>
    (key, level) :: (preorder value (level + 1) ++ preorder (.node rest) level)

/-- Level of the first preorder hit of a target key, `-1` if none. -/
def firstHit (target : Int) (l : List (Int × Int)) : Int :=
  match l.find? (fun p => p.1 == target) with
  | some p => p.2
  | none => -1

lemma preorder_level_ge (d : NestedDoc) (lvl : Int) :
    ∀ p ∈ preorder d lvl, lvl ≤ p.2 := by
  induction d, lvl using preorder.induct with
  | case1 level => intro p hp; simp [preorder] at hp
  | case2 key value rest level ih1 ih2 =>
    intro p hp
    rw [preorder] at hp
    rcases List.mem_cons.mp hp with he | hm
    · subst he; simp
    · rcases List.mem_append.mp hm with h1 | h2
      · have := ih1 p h1; omega
      · exact ih2 p h2

lemma cnl_eq_firstHit (t : Int) : ∀ (d : NestedDoc) (lvl : Int),
    0 ≤ lvl → count_nested_levels t d lvl = firstHit t (preorder d lvl) := by
  refine count_nested_levels.induct t
    (fun d lvl => 0 ≤ lvl → count_nested_levels t d lvl = firstHit t (preorder d lvl))
    ?_ ?_ ?_ ?_
  · intro level _
    simp [count_nested_levels, preorder, firstHit]
  · intro value rest level _
    rw [count_nested_levels, preorder, if_pos rfl, firstHit, List.find?_cons]
    simp
  · intro key value rest level hk level_found hf ih h
    have hfound : 0 ≤ count_nested_levels t value (level + 1) := hf
    have hk2 : (key == t) = false := by simp [hk]
    rw [count_nested_levels, preorder, if_neg hk, firstHit, List.find?_cons]
    simp only [hk2, List.find?_append]
    show (if 0 ≤ count_nested_levels t value (level + 1) then
        count_nested_levels t value (level + 1)
      else count_nested_levels t (NestedDoc.node rest) level) = _
    rw [if_pos hfound, ih (by omega)]
    rw [ih (by omega)] at hfound
    rcases hfind : (preorder value (level + 1)).find? (fun p => p.1 == t) with _ | p
    · rw [firstHit, hfind] at hfound
      exact absurd hfound (by norm_num)
    · simp [firstHit, hfind]
  · intro key value rest level hk level_found hnf ih1 ih2 h
    have hnfound : ¬0 ≤ count_nested_levels t value (level + 1) := hnf
    have hk2 : (key == t) = false := by simp [hk]
    rw [count_nested_levels, preorder, if_neg hk, firstHit, List.find?_cons]
    simp only [hk2, List.find?_append]
    show (if 0 ≤ count_nested_levels t value (level + 1) then
        count_nested_levels t value (level + 1)
      else count_nested_levels t (NestedDoc.node rest) level) = _
    rw [if_neg hnfound, ih2 h]
    rw [ih1 (by omega)] at hnfound
    rcases hfind : (preorder value (level + 1)).find? (fun p => p.1 == t) with _ | p
    · simp only [hfind, Option.none_or]
      rfl
    · exfalso
      have hp : (0 : Int) ≤ p.2 := by
        have := preorder_level_ge value (level + 1) p (List.mem_of_find?_eq_some hfind)
        omega
      rw [firstHit, hfind] at hnfound
      exact hnfound hp

/-- C3: `count_nested_levels(tree, target)` equals the level of the first
key equal to `target` in the preorder (depth-first, siblings in mapping
order) traversal with the root entries at level 1, and equals `-1` exactly
when the target id occurs nowhere in the tree. -/
theorem claim_C3_count_nested_levels (d : NestedDoc) (target : Int) :
    count_nested_levels target d 1 = firstHit target (preorder d 1) ∧
    (count_nested_levels target d 1 = -1 ↔ ∀ p ∈ preorder d 1, p.1 ≠ target) := by
  have h := cnl_eq_firstHit target d 1 (by norm_num)
  refine ⟨h, ?_⟩
  rw [h]
  rcases hv : (preorder d 1).find? (fun p => p.1 == target) with _ | p
  · simp only [firstHit, hv]
    constructor
    · intro _ p hp
      have := List.find?_eq_none.mp hv p hp
      simpa using this
    · intro _; trivial
  · simp only [firstHit, hv]
    have hmem := List.mem_of_find?_eq_some hv
    have hpt : p.1 = target := by simpa using List.find?_some hv
    have hlevel : (1 : Int) ≤ p.2 := preorder_level_ge d 1 p hmem
    constructor
    · intro he; exfalso; omega
    · intro hall; exact absurd hpt (hall p hmem)

/-! ### Python dict model: ordered association lists

Python dicts preserve insertion order; updating an existing key keeps its
position, inserting a new key appends at the end, and `d1 | d2` keeps
`d1`'s order (with `d2`'s values winning) followed by `d2`'s new keys. -/

/-- Dict lookup (`d[k]` / `k in d`). -/
def pyLookup {α β : Type} [DecidableEq α] : List (α × β) → α → Option β
  | [], _ => none
  | (k, v) :: rest, a => if k = a then some v else pyLookup rest a

/-- Dict update `d[k] = v`: overwrite in place or append at the end. -/
def pyDictInsert {α β : Type} [DecidableEq α] (d : List (α × β)) (k : α) (v : β) :
    List (α × β) :=
  if (pyLookup d k).isSome then
    d.map (fun p => if p.1 = k then (k, v) else p)
  else d ++ [(k, v)]

/-- Dict merge `d1 | d2` (Python 3.9 semantics). -/
def pyDictMerge {α β : Type} [DecidableEq α] (d1 d2 : List (α × β)) :
    List (α × β) :=
  d1.map (fun p =>
    match pyLookup d2 p.1 with
    | some w => (p.1, w)
    | none => p) ++ d2.filter (fun q => (pyLookup d1 q.1).isNone)

/-- `zipmap` from src/main.py: recursive `{keys[0]: values[0]} | zipmap(rest)`. -/
def zipmap {α β : Type} [DecidableEq α] : List α → List β → List (α × β)
  | [], _ => []
  | _ :: _, [] => []
  | k :: ks, v :: vs => pyDictMerge [(k, v)] (zipmap ks vs)

lemma pyLookup_append {α β : Type} [DecidableEq α] (d1 d2 : List (α × β)) (a : α) :
    pyLookup (d1 ++ d2) a = (pyLookup d1 a).or (pyLookup d2 a) := by
  induction d1 with
  | nil => simp [pyLookup]
  | cons p rest ih =>
    rcases p with ⟨k, v⟩
    by_cases hk : k = a <;> simp [pyLookup, hk, ih]

lemma pyLookup_filter {α β : Type} [DecidableEq α] (d : List (α × β))
    (p : α × β → Bool) (a : α) (hp : ∀ b, p (a, b) = true) :
    pyLookup (d.filter p) a = pyLookup d a := by
  induction d with
  | nil => rfl
  | cons q rest ih =>
    rcases q with ⟨k, v⟩
    by_cases hk : k = a
    · subst hk
      rw [List.filter_cons, hp v]
      simp [pyLookup, ih]
    · rw [List.filter_cons]
      by_cases hq : p (k, v) <;> simp [hq, pyLookup, hk, ih]

lemma pyLookup_isSome_of_mem {α β : Type} [DecidableEq α] {d : List (α × β)}
    {q : α × β} (h : q ∈ d) : (pyLookup d q.1).isSome = true := by
  induction d with
  | nil => simp at h
  | cons p rest ih =>
    rcases p with ⟨k, v⟩
    rcases List.mem_cons.mp h with he | hm
    · subst he; simp [pyLookup]
    · by_cases hk : k = q.1 <;> simp [pyLookup, hk, ih hm]

lemma pyLookup_merge_single {α β : Type} [DecidableEq α] (k : α) (v : β)
    (d : List (α × β)) (a : α) :
    pyLookup (pyDictMerge [(k, v)] d) a =
      if a = k then some ((pyLookup d k).getD v) else pyLookup d a := by
  rw [pyDictMerge]
  have hmap : ([(k, v)] : List (α × β)).map (fun p =>
      match pyLookup d p.1 with
      | some w => (p.1, w)
      | none => p) = [(k, (pyLookup d k).getD v)] := by
    rcases hd : pyLookup d k with _ | w <;> simp [hd]
  rw [hmap, pyLookup_append]
  by_cases ha : a = k
  · subst ha
    simp [pyLookup]
  · have ha' : ¬(k = a) := fun he => ha he.symm
    simp only [pyLookup, if_neg ha']
    rw [pyLookup_filter d _ a (fun b => by simp [pyLookup, ha'])]
    simp [ha]

lemma zipmap_lookup {α β : Type} [DecidableEq α] (ks : List α) (vs : List β) (a : α) :
    pyLookup (zipmap ks vs) a = pyLookup (List.zip ks vs).reverse a := by
  induction ks generalizing vs with
  | nil => simp [zipmap, pyLookup]
  | cons k ks' ih =>
    cases vs with
    | nil => simp [zipmap, pyLookup]
    | cons v vs' =>
      rw [zipmap, pyLookup_merge_single, List.zip_cons_cons, List.reverse_cons,
        pyLookup_append, ih vs']
      by_cases ha : a = k
      · subst ha
        rw [ih vs']
        rcases hd : pyLookup (List.zip ks' vs').reverse a with _ | w <;>
          simp [hd, pyLookup]
      · have ha' : ¬(k = a) := fun he => ha he.symm
        simp [pyLookup, ha, ha']

lemma zipmap_key_mem {α β : Type} [DecidableEq α] (ks : List α) (vs : List β)
    {q : α × β} (h : q ∈ zipmap ks vs) : q.1 ∈ ks := by
  by_contra hq
  have h1 := pyLookup_isSome_of_mem h
  rw [zipmap_lookup] at h1
  have h2 : pyLookup (List.zip ks vs).reverse q.1 = none := by
    have : ∀ d : List (α × β), (∀ p ∈ d, p.1 ≠ q.1) → pyLookup d q.1 = none := by
      intro d
      induction d with
      | nil => intro _; rfl
      | cons p rest ih =>
        intro hall
        rcases p with ⟨k, v⟩
        have hk : k ≠ q.1 := hall (k, v) (by simp)
        simp [pyLookup, hk, ih (fun p hp => hall p (by simp [hp]))]
    refine this _ ?_
    intro p hp
    rw [List.mem_reverse] at hp
    intro he
    exact hq (he ▸ List.of_mem_zip hp |>.1)
  rw [h2] at h1
  simp at h1

/-- C5: `zipmap` pairs keys with values positionally, truncated to the
shorter list: as a mapping it agrees with the dict of the truncated
positional pairs (last occurrence winning, as for Python dicts); for
duplicate-free keys it is literally the truncated pair list, and it is
empty exactly when either input is. -/
theorem claim_C5_zipmap {α β : Type} [DecidableEq α]
    (keys : List α) (values : List β) :
    (∀ a, pyLookup (zipmap keys values) a =
      pyLookup (List.zip keys values).reverse a) ∧
    (keys.Nodup → zipmap keys values = List.zip keys values) ∧
    (zipmap keys values = [] ↔ keys = [] ∨ values = []) := by
  refine ⟨zipmap_lookup keys values, ?_, ?_⟩
  · intro hnd
    induction keys generalizing values with
    | nil => simp [zipmap]
    | cons k ks' ih =>
      cases values with
      | nil => simp [zipmap]
      | cons v vs' =>
        have hk : k ∉ ks' := (List.nodup_cons.mp hnd).1
        have hnone : pyLookup (zipmap ks' vs') k = none := by
          rcases hd : pyLookup (zipmap ks' vs') k with _ | w
          · rfl
          · exfalso
            have : ∀ d : List (α × β), pyLookup d k = some w → ∃ b, (k, b) ∈ d := by
              intro d
              induction d with
              | nil => intro h; simp [pyLookup] at h
              | cons p rest ih2 =>
                rcases p with ⟨k2, v2⟩
                intro h
                by_cases hk2 : k2 = k
                · exact ⟨v2, by simp [hk2]⟩
                · rw [pyLookup, if_neg hk2] at h
                  rcases ih2 h with ⟨b, hb⟩
                  exact ⟨b, by simp [hb]⟩
            rcases this _ hd with ⟨b, hb⟩
            exact hk (zipmap_key_mem ks' vs' hb)
        rw [zipmap, List.zip_cons_cons, pyDictMerge]
        have hfil : (zipmap ks' vs').filter
            (fun q => (pyLookup [(k, v)] q.1).isNone) = zipmap ks' vs' := by
          rw [List.filter_eq_self]
          intro q hq
          have hqk : q.1 ≠ k := fun he =>
            hk (he ▸ zipmap_key_mem ks' vs' hq)
          have hkq : ¬(k = q.1) := fun he => hqk he.symm
          simp [pyLookup, hkq]
        rw [hfil]
        simp only [List.map, hnone]
        rw [ih vs' (List.nodup_cons.mp hnd).2]
        rfl
  · constructor
    · intro h
      cases keys with
      | nil => exact Or.inl rfl
      | cons k ks' =>
        cases values with
        | nil => exact Or.inr rfl
        | cons v vs' =>
          exfalso
          rw [zipmap, pyDictMerge] at h
          simp at h
    · intro h
      rcases h with rfl | rfl
      · rfl
      · cases keys <;> rfl

/-- C5 witness: the duplicate-free clause on the spec's example, giving
`zipmap(["a","b"], [1,2,3]) = {"a": 1, "b": 2}`. -/
theorem claim_C5_witness :
    zipmap ["a", "b"] [1, 2, 3] = [("a", 1), ("b", 2)] :=
  ((claim_C5_zipmap ["a", "b"] [1, 2, 3]).2.1 (by decide)).trans (by decide)

/-! ### Model of `word_count` / `word_count_memo` (src/main.py) -/

/-- Word counter for Python `len(s.split())`: counts maximal runs of
non-whitespace characters; `inWord` records whether the previous character
was part of a word. -/
def countWords : List Char → Bool → Nat
  | [], _ => 0
  | c :: rest, inWord =>
    if isPyWs c then countWords rest false
    else (if inWord then 0 else 1) + countWords rest true

/-- `word_count` from src/main.py: `len(document.split())`. -/
def word_count (document : String) : Nat :=
  countWords document.data false

/-- `word_count_memo` from src/main.py: the returned table is an updated
copy (`memos.copy()` plus one insertion), never the mutated input. -/
def word_count_memo (document : String) (memos : List (String × Nat)) :
    Nat × List (String × Nat) :=
  match pyLookup memos document with
  | some c => (c, memos)
  | none =>
    let count := word_count document
    (count, pyDictInsert memos document count)

lemma pyLookup_map_update_self {α β : Type} [DecidableEq α]
    (d : List (α × β)) (k : α) (v : β) (h : (pyLookup d k).isSome = true) :
    pyLookup (d.map (fun p => if p.1 = k then (k, v) else p)) k = some v := by
  induction d with
  | nil => simp [pyLookup] at h
  | cons p rest ih =>
    rcases p with ⟨k2, v2⟩
    by_cases hk : k2 = k
    · subst hk
      have hmap : ((k2, v2) :: rest).map (fun p => if p.1 = k2 then (k2, v) else p) =
          (k2, v) :: rest.map (fun p => if p.1 = k2 then (k2, v) else p) := by simp
      rw [hmap, pyLookup, if_pos rfl]
    · have hmap : ((k2, v2) :: rest).map (fun p => if p.1 = k then (k, v) else p) =
          (k2, v2) :: rest.map (fun p => if p.1 = k then (k, v) else p) := by simp [hk]
      rw [hmap, pyLookup, if_neg hk]
      rw [pyLookup, if_neg hk] at h
      exact ih h

lemma pyLookup_map_update_other {α β : Type} [DecidableEq α]
    (d : List (α × β)) (k : α) (v : β) (a : α) (ha : a ≠ k) :
    pyLookup (d.map (fun p => if p.1 = k then (k, v) else p)) a = pyLookup d a := by
  induction d with
  | nil => rfl
  | cons p rest ih =>
    rcases p with ⟨k2, v2⟩
    by_cases hk : k2 = k
    · subst hk
      have hmap : ((k2, v2) :: rest).map (fun p => if p.1 = k2 then (k2, v) else p) =
          (k2, v) :: rest.map (fun p => if p.1 = k2 then (k2, v) else p) := by simp
      have hne : ¬(k2 = a) := fun he => ha he.symm
      rw [hmap, pyLookup, if_neg hne, pyLookup, if_neg hne]
      exact ih
    · have hmap : ((k2, v2) :: rest).map (fun p => if p.1 = k then (k, v) else p) =
          (k2, v2) :: rest.map (fun p => if p.1 = k then (k, v) else p) := by simp [hk]
      rw [hmap, pyLookup, pyLookup]
      by_cases hk2 : k2 = a
      · rw [if_pos hk2, if_pos hk2]
      · rw [if_neg hk2, if_neg hk2]
        exact ih

lemma pyLookup_insert_self {α β : Type} [DecidableEq α]
    (d : List (α × β)) (k : α) (v : β) :
    pyLookup (pyDictInsert d k v) k = some v := by
  rw [pyDictInsert]
  by_cases h : (pyLookup d k).isSome
  · rw [if_pos h]
    exact pyLookup_map_update_self d k v h
  · rw [if_neg h, pyLookup_append]
    have hnone : pyLookup d k = none := by
      rcases hd : pyLookup d k with _ | w
      · rfl
      · rw [hd] at h; simp at h
    rw [hnone]
    simp [pyLookup]

lemma pyLookup_insert_other {α β : Type} [DecidableEq α]
    (d : List (α × β)) (k : α) (v : β) (a : α) (ha : a ≠ k) :
    pyLookup (pyDictInsert d k v) a = pyLookup d a := by
  rw [pyDictInsert]
  by_cases h : (pyLookup d k).isSome
  · rw [if_pos h]
    exact pyLookup_map_update_other d k v a ha
  · rw [if_neg h, pyLookup_append]
    have hne : ¬(k = a) := fun he => ha he.symm
    simp [pyLookup, hne]

/-- C7: `word_count_memo` returns a pair `(count, new_memos)` where
`new_memos` contains the document as a key (mapped to the returned count),
agrees with the input table on every other key, and the count is the
memoized value when present and the fresh whitespace-word count otherwise;
the input table itself is returned or copied, never mutated (the model is
a pure function of `memos`). -/
theorem claim_C7_word_count_memo (document : String) (memos : List (String × Nat)) :
    pyLookup (word_count_memo document memos).2 document =
      some (word_count_memo document memos).1 ∧
    (∀ k, k ≠ document →
      pyLookup (word_count_memo document memos).2 k = pyLookup memos k) ∧
    (∀ c0, pyLookup memos document = some c0 →
      word_count_memo document memos = (c0, memos)) ∧
    (pyLookup memos document = none →
      word_count_memo document memos =
        (word_count document, pyDictInsert memos document (word_count document))) := by
  rcases hd : pyLookup memos document with _ | c
  · refine ⟨?_, ?_, ?_, ?_⟩
    · rw [word_count_memo, hd]
      exact pyLookup_insert_self memos document (word_count document)
    · intro k hk
      rw [word_count_memo, hd]
      exact pyLookup_insert_other memos document (word_count document) k hk
    · intro c0 hc0
      exact absurd hc0 (by simp)
    · intro _
      rw [word_count_memo, hd]
  · refine ⟨?_, ?_, ?_, ?_⟩
    · rw [word_count_memo, hd]
      exact hd
    · intro k _
      rw [word_count_memo, hd]
    · intro c0 hc0
      cases hc0
      rw [word_count_memo, hd]
    · intro hn
      exact absurd hn (by simp)

/-- C7 witness: the memoized and fresh clauses at concrete inputs. -/
theorem claim_C7_witness :
    word_count_memo "a b" [("a b", 7)] = (7, [("a b", 7)]) ∧
    word_count_memo "one two" [] = (2, [("one two", 2)]) :=
  ⟨(claim_C7_word_count_memo "a b" [("a b", 7)]).2.2.1 7 (by rfl),
    ((claim_C7_word_count_memo "one two" []).2.2.2 (by rfl)).trans (by rfl)⟩

/-! ### Model of `pair_document_with_format` (src/main.py) -/

/-- `pair_document_with_format` from src/main.py: `zip(..., strict=True)`
raises `ValueError` on unequal lengths, then filters by the fixed
extension list. -/
def pair_document_with_format (doc_names doc_formats : List String) :
    Except PyErr (List (String × String)) :=
  if doc_names.length = doc_formats.length then
    .ok ((doc_names.zip doc_formats).filter (fun t => t.2 ∈ valid_extensions))
  else .error (.valueErr "zip() arguments have unequal lengths")

/-- C8: with lists of unequal length `pair_document_with_format` raises
(`strict=True`) rather than truncating; with equal lengths it returns, in
order, exactly the positional pairs whose format is in the fixed set
{docx, pdf, txt, pptx, ppt, md}. -/
theorem claim_C8_pair_document_with_format (doc_names doc_formats : List String) :
    ((∃ e, pair_document_with_format doc_names doc_formats = .error e) ↔
      doc_names.length ≠ doc_formats.length) ∧
    (doc_names.length = doc_formats.length →
      pair_document_with_format doc_names doc_formats =
        .ok ((doc_names.zip doc_formats).filter
          (fun t => t.2 ∈ valid_extensions))) := by
  constructor
  · by_cases h : doc_names.length = doc_formats.length <;>
      simp [pair_document_with_format, h]
  · intro h
    rw [pair_document_with_format, if_pos h]

/-- C8 witness: equal-length inputs are zipped and filtered; the pair with
format `"exe"` is dropped. -/
theorem claim_C8_witness :
    pair_document_with_format ["a", "b", "c"] ["docx", "exe", "md"] =
      .ok [("a", "docx"), ("c", "md")] :=
  ((claim_C8_pair_document_with_format ["a", "b", "c"]
    ["docx", "exe", "md"]).2 (by rfl)).trans (by rfl)

/-! ### Model of `join` / `join_first_sentences` (src/main.py) -/

/-- `join` from src/main.py. -/
def join (doc_so_far sentence : String) : String :=
  doc_so_far ++ ". " ++ sentence

/-- Python slice `l[:n]` including negative `n` (drop `-n` from the end). -/
def pySliceTo (n : Int) (l : List String) : List String :=
  if 0 ≤ n then l.take n.toNat else l.take (l.length - (-n).toNat)

/-- `join_first_sentences` from src/main.py: `""` when `n == 0` (falsy),
otherwise `reduce(join, sentences[:n])` followed by a dot — `reduce` of an
empty sequence with no initial value raises `TypeError`. -/
def join_first_sentences (sentences : List String) (n : Int) :
    Except PyErr String :=
  if n = 0 then .ok ""
  else
    match pySliceTo n sentences with
    | [] => .error (.typeErr "reduce() of empty iterable with no initial value")
    | s :: rest => .ok (rest.foldl join s ++ ".")

/-- Spec-side joining: the sentences separated by `". "`. -/
def joinDotSep : List String → String
  | [] => ""
  | [s] => s
  | s :: rest => s ++ ". " ++ joinDotSep rest

lemma foldl_join_eq_joinDotSep (rest : List String) :
    ∀ s, rest.foldl join s = joinDotSep (s :: rest) := by
  induction rest with
  | nil => intro s; rfl
  | cons a rest' ih =>
    intro s
    rw [List.foldl_cons]
    rw [ih (join s a)]
    cases rest' with
    | nil => rfl
    | cons b rest2 =>
      show join s a ++ ". " ++ joinDotSep (b :: rest2) =
        s ++ ". " ++ (a ++ ". " ++ joinDotSep (b :: rest2))
      rw [join]
      simp [String.append_assoc]

/-- C10: `join_first_sentences` returns `""` when `n` is 0; raises when
`n` is non-zero and the slice `sentences[:n]` is empty (reduce over an
empty sequence); and for positive `n` with a non-empty list returns the
first `n` sentences joined with `". "` plus a trailing `"."`. -/
theorem claim_C10_join_first_sentences (sentences : List String) (n : Int) :
    (n = 0 → join_first_sentences sentences n = .ok "") ∧
    (n ≠ 0 → pySliceTo n sentences = [] →
      ∃ e, join_first_sentences sentences n = .error e) ∧
    (0 < n → sentences ≠ [] →
      join_first_sentences sentences n =
        .ok (joinDotSep (sentences.take n.toNat) ++ ".")) := by
  refine ⟨?_, ?_, ?_⟩
  · intro h
    rw [join_first_sentences, if_pos h]
  · intro hn hsl
    rw [join_first_sentences, if_neg hn, hsl]
    exact ⟨_, rfl⟩
  · intro hn hne
    have hn0 : n ≠ 0 := by omega
    rw [join_first_sentences, if_neg hn0]
    have hsl : pySliceTo n sentences = sentences.take n.toNat := by
      rw [pySliceTo, if_pos (by omega)]
    rw [hsl]
    rcases ht : sentences.take n.toNat with _ | ⟨s, rest⟩
    · exfalso
      have hlen := congrArg List.length ht
      rw [List.length_take] at hlen
      simp only [List.length_nil] at hlen
      have h1 : 0 < sentences.length := List.length_pos.mpr hne
      omega
    · show Except.ok (rest.foldl join s ++ ".") =
        Except.ok (joinDotSep (s :: rest) ++ ".")
      rw [foldl_join_eq_joinDotSep rest s]

/-- C10 witness: the three clauses at concrete inputs. -/
theorem claim_C10_witness :
    join_first_sentences ["One", "Two"] 0 = .ok "" ∧
    (∃ e, join_first_sentences [] 1 = .error e) ∧
    join_first_sentences ["One", "Two", "Three"] 2 = .ok "One. Two." :=
  ⟨(claim_C10_join_first_sentences ["One", "Two"] 0).1 rfl,
    (claim_C10_join_first_sentences [] 1).2.1 (by decide) (by rfl),
    ((claim_C10_join_first_sentences ["One", "Two", "Three"] 2).2.2
      (by decide) (by decide)).trans (by rfl)⟩

/-! ### Model of `convert_case` (src/main.py) -/

/-- Python `str.upper()` (ASCII case mapping). -/
def pyUpper (s : String) : String :=
  ⟨s.data.map Char.toUpper⟩

/-- Python `str.lower()` (ASCII case mapping). -/
def pyLower (s : String) : String :=
  ⟨s.data.map Char.toLower⟩

/-- Python `str.title()` (ASCII): uppercase each letter that follows a
non-letter, lowercase the rest. -/
def pyTitleAux : List Char → Bool → List Char
  | [], _ => []
  | c :: rest, prevAlpha =>
    (if prevAlpha then c.toLower else c.toUpper) :: pyTitleAux rest c.isAlpha

/-- Python `str.title()` on strings. -/
def pyTitle (s : String) : String :=
  ⟨pyTitleAux s.data false⟩

/-- `convert_case` from src/main.py: empty-input check first, then the
three supported formats, then the unsupported-format error. -/
def convert_case (text target_format : String) : Except PyErr String :=
  if text = "" ∨ target_format = "" then
    .error (.valueErr "no text or target format provided")
  else if target_format = "uppercase" then .ok (pyUpper text)
  else if target_format = "lowercase" then .ok (pyLower text)
  else if target_format = "titlecase" then .ok (pyTitle text)
  else .error (.valueErr ("unsupported format: " ++ target_format))

lemma unsupported_msg_ne (tf : String) :
    ("unsupported format: " ++ tf) ≠ "no text or target format provided" := by
  intro h
  have h2 := congrArg (fun s => s.data.head?) h
  simp only [String.data_append, List.head?_append] at h2
  rw [show ("unsupported format: " : String).data.head? = some 'u' from rfl] at h2
  rw [show ("no text or target format provided" : String).data.head? = some 'n'
    from rfl] at h2
  simp at h2

/-- C6 counterexample: at `text = ""`, `target_format = "bogus"` the
target format is non-empty and unsupported, yet `convert_case` raises the
empty-input error, not the unsupported-format error. -/
theorem claim_C6_counterexample :
    convert_case "" "bogus" = .error (.valueErr "no text or target format provided") ∧
    ("bogus" : String) ≠ "" ∧
    ("bogus" : String) ∉ (["uppercase", "lowercase", "titlecase"] : List String) ∧
    PyErr.valueErr "no text or target format provided" ≠
      .valueErr ("unsupported format: " ++ "bogus") := by
  refine ⟨by rfl, by decide, by decide, ?_⟩
  intro h
  exact unsupported_msg_ne "bogus" (by injection h with h2; exact h2.symm)

/-- C6 (amended): `convert_case` raises "no text or target format
provided" exactly when `text` or `target_format` is empty; raises the
distinct unsupported-format error exactly when both are non-empty and
`target_format` is not one of uppercase/lowercase/titlecase; otherwise
returns the converted text. -/
theorem claim_C6_convert_case (text target_format : String) :
    (convert_case text target_format =
        .error (.valueErr "no text or target format provided") ↔
      text = "" ∨ target_format = "") ∧
    (convert_case text target_format =
        .error (.valueErr ("unsupported format: " ++ target_format)) ↔
      text ≠ "" ∧ target_format ≠ "" ∧
        target_format ∉ (["uppercase", "lowercase", "titlecase"] : List String)) ∧
    (text ≠ "" → target_format = "uppercase" →
      convert_case text target_format = .ok (pyUpper text)) ∧
    (text ≠ "" → target_format = "lowercase" →
      convert_case text target_format = .ok (pyLower text)) ∧
    (text ≠ "" → target_format = "titlecase" →
      convert_case text target_format = .ok (pyTitle text)) := by
  by_cases he : text = "" ∨ target_format = ""
  · rw [convert_case, if_pos he]
    refine ⟨by simp [he], ?_, ?_, ?_, ?_⟩
    · constructor
      · intro h
        exfalso
        have h2 := (Except.error.injEq _ _).mp h
        have h3 := (PyErr.valueErr.injEq _ _).mp h2
        exact unsupported_msg_ne target_format h3.symm
      · intro h
        obtain ⟨h1, h2, _⟩ := h
        rcases he with he | he
        · exact absurd he h1
        · exact absurd he h2
    · intro h1 h2
      rcases he with he | he
      · exact absurd he h1
      · rw [he] at h2; exact absurd h2 (by decide)
    · intro h1 h2
      rcases he with he | he
      · exact absurd he h1
      · rw [he] at h2; exact absurd h2 (by decide)
    · intro h1 h2
      rcases he with he | he
      · exact absurd he h1
      · rw [he] at h2; exact absurd h2 (by decide)
  · push_neg at he
    obtain ⟨ht, hf⟩ := he
    rw [convert_case, if_neg (by tauto)]
    by_cases h1 : target_format = "uppercase"
    · rw [if_pos h1]
      refine ⟨by simp [ht, hf], ?_, fun _ _ => rfl, ?_, ?_⟩
      · constructor
        · intro h; exact absurd h (by simp)
        · intro h
          obtain ⟨_, _, hmem⟩ := h
          rw [h1] at hmem
          exact absurd (by decide) hmem
      · intro _ h2; rw [h1] at h2; exact absurd h2 (by decide)
      · intro _ h2; rw [h1] at h2; exact absurd h2 (by decide)
    · rw [if_neg h1]
      by_cases h2 : target_format = "lowercase"
      · rw [if_pos h2]
        refine ⟨by simp [ht, hf], ?_, ?_, fun _ _ => rfl, ?_⟩
        · constructor
          · intro h; exact absurd h (by simp)
          · intro h
            obtain ⟨_, _, hmem⟩ := h
            rw [h2] at hmem
            exact absurd (by decide) hmem
        · intro _ h3; rw [h2] at h3; exact absurd h3 (by decide)
        · intro _ h3; rw [h2] at h3; exact absurd h3 (by decide)
      · rw [if_neg h2]
        by_cases h3 : target_format = "titlecase"
        · rw [if_pos h3]
          refine ⟨by simp [ht, hf], ?_, ?_, ?_, fun _ _ => rfl⟩
          · constructor
            · intro h; exact absurd h (by simp)
            · intro h
              obtain ⟨_, _, hmem⟩ := h
              rw [h3] at hmem
              exact absurd (by decide) hmem
          · intro _ h4; rw [h3] at h4; exact absurd h4 (by decide)
          · intro _ h4; rw [h3] at h4; exact absurd h4 (by decide)
        · rw [if_neg h3]
          refine ⟨?_, ?_, ?_, ?_, ?_⟩
          · constructor
            · intro h
              exfalso
              have ha := (Except.error.injEq _ _).mp h
              have hb := (PyErr.valueErr.injEq _ _).mp ha
              exact unsupported_msg_ne target_format hb
            · intro h
              rcases h with h | h
              · exact absurd h ht
              · exact absurd h hf
          · constructor
            · intro _
              refine ⟨ht, hf, ?_⟩
              intro hmem
              rcases List.mem_cons.mp hmem with hx | hmem2
              · exact h1 hx
              · rcases List.mem_cons.mp hmem2 with hx | hmem3
                · exact h2 hx
                · rcases List.mem_cons.mp hmem3 with hx | hmem4
                  · exact h3 hx
                  · simp at hmem4
            · intro _; rfl
          · intro _ hh; exact absurd hh h1
          · intro _ hh; exact absurd hh h2
          · intro _ hh; exact absurd hh h3

/-- C6 witness: the amended characterisation at concrete inputs. -/
theorem claim_C6_witness :
    convert_case "Hello" "uppercase" = .ok (pyUpper "Hello") ∧
    convert_case "Hello" "bogus" =
      .error (.valueErr ("unsupported format: " ++ "bogus")) :=
  ⟨(claim_C6_convert_case "Hello" "uppercase").2.2.1 (by decide) rfl,
    ((claim_C6_convert_case "Hello" "bogus").2.1).mpr
      ⟨by decide, by decide, by decide⟩⟩

end Doc2Doc
